import Mathlib

/-!
Verification of the bencode codec in `src/main.rs` (module `bencode`).

Modelling conventions:
* Rust `String` / `&str` content is modelled as `List Char`; the decoder in
  the source walks the input `char` by `char`, and the wire format is ASCII,
  where byte positions and character positions coincide.
* The `HashMap<String, Bencode>` behind `BDict` is modelled as the
  association list of its entries in iteration order; `insert` and `get`
  are modelled accordingly.  Iteration order of a Rust `HashMap` is not a
  function of its key/value set, which the list order reflects.
* A Rust panic (`panic!`, `unwrap` on `None` / a parse error, or an
  out-of-bounds slice) is modelled as `none`; the decoder has no other
  error channel.
* The mutually recursive decoder loops take a `Nat` fuel argument, matching
  the unbounded Rust loops; theorems either quantify over the fuel or
  instantiate it large enough for the concrete input at hand.
-/

set_option maxHeartbeats 1600000

namespace SchmooBencode

/-- The value tree of the bencode codec, Rust's `enum Bencode`. -/
inductive Bencode where
  | BList : List Bencode → Bencode
  | BString : List Char → Bencode
  | BDict : List (List Char × Bencode) → Bencode
  | BInt : Int → Bencode

/-- Character of one decimal digit. -/
def digitChar : Nat → Char
  | 0 => '0'
  | 1 => '1'
  | 2 => '2'
  | 3 => '3'
  | 4 => '4'
  | 5 => '5'
  | 6 => '6'
  | 7 => '7'
  | 8 => '8'
  | 9 => '9'
  | _ => '*'

/-- Helper for `natChars`: most-significant-first decimal digits of `n`,
empty for `0`.  The first argument is recursion fuel; `n` itself suffices
because the value shrinks by a factor of ten every step. -/
def natCharsAux : Nat → Nat → List Char
  | 0, _ => []
  | fuel + 1, n =>
    if n = 0 then [] else natCharsAux fuel (n / 10) ++ [digitChar (n % 10)]

/-- Decimal representation of a natural number, as Rust's `format!` prints a
nonnegative integer or a `usize` length: no sign, no leading zeros, and the
single digit `0` for zero. -/
def natChars (n : Nat) : List Char :=
  if n = 0 then ['0'] else natCharsAux n n

/-- Decimal representation of a signed integer, as Rust's `format!` prints an
`i64`: a leading `-` for negative values, bare digits otherwise. -/
def intChars (n : Int) : List Char :=
  if n < 0 then '-' :: natChars n.natAbs else natChars n.toNat

/-- Value of a run of decimal digit characters, most significant first: the
digit-accumulation loop shared by Rust's integer `FromStr` implementations.
Returns `none` for an empty run or any non-digit character. -/
def parseNatDigits (s : List Char) : Option Nat :=
  if s = [] then none
  else if s.all Char.isDigit then
    some (s.foldl (fun acc c => acc * 10 + (c.toNat - 48)) 0)
  else none

/-- Rust `str::parse::<usize>`: an optional leading `+`, then at least one
decimal digit, rejecting values that overflow 64-bit `usize`. -/
def parseUsize : List Char → Option Nat
  | [] => none
  | c :: rest =>
    (parseNatDigits (if c = '+' then rest else c :: rest)).bind
      (fun n => if n < 18446744073709551616 then some n else none)

/-- Rust `str::parse::<i64>`: an optional leading `+` or `-`, then at least
one decimal digit, rejecting values outside the `i64` range. -/
def parseI64 : List Char → Option Int
  | [] => none
  | c :: rest =>
    if c = '-' then
      (parseNatDigits rest).bind
        (fun n => if n ≤ 9223372036854775808 then some (-(n : Int)) else none)
    else
      (parseNatDigits (if c = '+' then rest else c :: rest)).bind
        (fun n => if n < 9223372036854775808 then some ((n : Int)) else none)

/-- Index of the first occurrence of `t`, Rust's `str::find` applied to a
single-character pattern. -/
def findIdxChar (t : Char) : List Char → Option Nat
  | [] => none
  | c :: rest => if c = t then some 0 else (findIdxChar t rest).map (· + 1)

/-- Rust `HashMap::insert` on the association-list model: replace the entry
of an existing key in place, otherwise append a new entry. -/
def insertPair (m : List (List Char × Bencode)) (k : List Char) (v : Bencode) :
    List (List Char × Bencode) :=
  match m with
  | [] => [(k, v)]
  | (k', v') :: rest =>
    if k' = k then (k, v) :: rest else (k', v') :: insertPair rest k v

/-- Rust `HashMap::get` on the association-list model. -/
def lookupPair (m : List (List Char × Bencode)) (k : List Char) : Option Bencode :=
  match m with
  | [] => none
  | (k', v) :: rest => if k' = k then some v else lookupPair rest k

/-- Rust `_decode_int` (src/main.rs:132-136): everything before the first `e`
is parsed as an `i64` and the remainder starts after that `e`; a missing `e`
or an unparsable number is a panic, modelled as `none`. -/
def _decode_int (s : List Char) : Option (Bencode × List Char) :=
  match findIdxChar 'e' s with
  | none => none
  | some endIdx =>
    match parseI64 (s.take endIdx) with
    | none => none
    | some int => some (.BInt int, s.drop (endIdx + 1))

/-- Rust `_decode_string` (src/main.rs:138-145): read the decimal length
before the first `:`, then slice out exactly that many characters of content;
a missing `:`, an unparsable length, or a slice past the end of the input is
a panic, modelled as `none`. -/
def _decode_string (s : List Char) : Option (List Char × List Char) :=
  match findIdxChar ':' s with
  | none => none
  | some delimiter =>
    match parseUsize (s.take delimiter) with
    | none => none
    | some length =>
      let wordStart := delimiter + 1
      let wordEnd := wordStart + length
      if wordEnd ≤ s.length then
        some ((s.drop wordStart).take length, s.drop wordEnd)
      else none

/-- Rust `_decode_b_string` (src/main.rs:147-157): the same slicing as
`_decode_string`, wrapped as a `BString` value. -/
def _decode_b_string (s : List Char) : Option (Bencode × List Char) :=
  match _decode_string s with
  | none => none
  | some (w, r) => some (.BString w, r)

mutual

/-- Rust `Bencode::decode` (src/main.rs:23-42): dispatch on the leading
character; `l`, `d` and `i` send the rest of the input to the list,
dictionary and integer decoders, any other character sends the whole input
to the byte-string decoder, and empty input is a panic (`none`).  The `Nat`
argument is recursion fuel for the mutually recursive loops. -/
def decode : Nat → List Char → Option (Bencode × List Char)
  | 0, _ => none
  | fuel + 1, s =>
    match s with
    | [] => none
    | c :: rest =>
      if c = 'l' then _decode_list fuel [] rest
      else if c = 'd' then _decode_dict fuel [] (some '0') rest
      else if c = 'i' then _decode_int rest
      else _decode_b_string (c :: rest)

/-- Rust `_decode_list` (src/main.rs:91-107): accumulate decoded values until
the cursor — the head of the remaining input — is `e`.  The break returns the
remaining input `substr` unchanged, so the terminating `e` is left
unconsumed; this models the source faithfully, including that slip. -/
def _decode_list : Nat → List Bencode → List Char → Option (Bencode × List Char)
  | 0, _, _ => none
  | fuel + 1, results, substr =>
    match substr.head? with
    | none => none
    | some c =>
      if c = 'e' then some (.BList results, substr)
      else
        match decode fuel substr with
        | none => none
        | some (v, substr') => _decode_list fuel (results ++ [v]) substr'

/-- Rust `_decode_dict` (src/main.rs:109-130): the loop state is the cursor —
the character last pulled from the `chars` iterator, initially the
placeholder `'0'` — and `rest`, what `chars.as_str()` returns.  On cursor `e`
the dictionary is returned with `rest` (that `e` was already pulled off, so
it is consumed); otherwise one key is decoded from `rest` — which, on every
iteration after the first, has already lost the character sitting in the
cursor — then one value, the pair is inserted, and the next cursor character
is pulled off the remainder. -/
def _decode_dict : Nat → List (List Char × Bencode) → Option Char → List Char →
    Option (Bencode × List Char)
  | 0, _, _, _ => none
  | fuel + 1, results, cursor, rest =>
    match cursor with
    | none => none
    | some c =>
      if c = 'e' then some (.BDict results, rest)
      else
        match _decode_string rest with
        | none => none
        | some (key, remainder) =>
          match decode fuel remainder with
          | none => none
          | some (value, remainder') =>
            _decode_dict fuel (insertPair results key value) remainder'.head?
              remainder'.tail

end

mutual

/-- Rust `Bencode::encode` (src/main.rs:14-21). -/
def encode : Bencode → List Char
  | .BString s => natChars s.length ++ ':' :: s
  | .BInt int => 'i' :: (intChars int ++ ['e'])
  | .BList list => _encode_list list
  | .BDict dict => _encode_dict dict

/-- Rust `_encode_list` (src/main.rs:159-166): `l`, each element's encoding
in order, `e`. -/
def _encode_list (list : List Bencode) : List Char :=
  'l' :: _encode_items list ++ ['e']

/-- The fold inside `_encode_list`: concatenation of the element encodings in
order. -/
def _encode_items : List Bencode → List Char
  | [] => []
  | v :: rest => encode v ++ _encode_items rest

/-- Rust `_encode_dict` (src/main.rs:168-176): `d`, then for each stored pair
the key as a length-prefixed string immediately followed by the value's
encoding, then `e`. -/
def _encode_dict (dict : List (List Char × Bencode)) : List Char :=
  'd' :: _encode_pairs dict ++ ['e']

/-- The fold inside `_encode_dict`: length-prefixed key, encoded value, next
pairs. -/
def _encode_pairs : List (List Char × Bencode) → List Char
  | [] => []
  | (key, value) :: rest =>
    natChars key.length ++ ':' :: (key ++ encode value ++ _encode_pairs rest)

end

mutual

/-- Rust `PartialEq for Bencode` (src/main.rs:56-89): equal iff the same
variant with equal payloads, where the `HashMap` payload of `BDict` compares
as Rust `HashMap` equality does: equal size and every key of the left map
present in the right map with an equal value. -/
def beq : Bencode → Bencode → Bool
  | .BString a, .BString b => a == b
  | .BList a, .BList b => beqItems a b
  | .BDict a, .BDict b => a.length == b.length && beqPairsIn a b
  | .BInt a, .BInt b => a == b
  | _, _ => false

/-- Rust `Vec<Bencode>` equality: equal length and pointwise equal
elements. -/
def beqItems : List Bencode → List Bencode → Bool
  | [], [] => true
  | x :: xs, y :: ys => beq x y && beqItems xs ys
  | _, _ => false

/-- One direction of Rust `HashMap` equality: every pair of the first map is
matched by the second map. -/
def beqPairsIn : List (List Char × Bencode) → List (List Char × Bencode) → Bool
  | [], _ => true
  | (k, v) :: rest, other =>
    (match lookupPair other k with
     | some v' => beq v v'
     | none => false) && beqPairsIn rest other

end

lemma digitChar_isDigit (d : Nat) (h : d < 10) : (digitChar d).isDigit = true := by
  interval_cases d <;> decide

lemma digitChar_toNat (d : Nat) (h : d < 10) : (digitChar d).toNat = 48 + d := by
  interval_cases d <;> decide

lemma isDigit_ne {c x : Char} (hc : c.isDigit = true) (hx : x.isDigit = false) :
    c ≠ x := by
  intro h
  subst h
  rw [hc] at hx
  exact Bool.noConfusion hx

lemma natCharsAux_zero (fuel : Nat) : natCharsAux fuel 0 = [] := by
  cases fuel <;> simp [natCharsAux]

lemma natCharsAux_all_digit (fuel : Nat) :
    ∀ n c, c ∈ natCharsAux fuel n → c.isDigit = true := by
  induction fuel with
  | zero => intro n c h; simp [natCharsAux] at h
  | succ fuel ih =>
    intro n c h
    by_cases hn : n = 0
    · simp [natCharsAux, hn] at h
    · simp only [natCharsAux, if_neg hn, List.mem_append, List.mem_singleton] at h
      rcases h with h | h
      · exact ih _ _ h
      · subst h
        exact digitChar_isDigit _ (Nat.mod_lt _ (by omega))

lemma natChars_all_digit (n : Nat) : ∀ c ∈ natChars n, c.isDigit = true := by
  intro c h
  by_cases hn : n = 0
  · simp [natChars, hn] at h
    subst h; decide
  · simp only [natChars, if_neg hn] at h
    exact natCharsAux_all_digit _ _ _ h

lemma natCharsAux_ne_nil (fuel n : Nat) (h0 : 0 < n) (hf : 0 < fuel) :
    natCharsAux fuel n ≠ [] := by
  cases fuel with
  | zero => omega
  | succ fuel =>
    simp only [natCharsAux, if_neg (by omega : ¬ n = 0)]
    simp

lemma natChars_ne_nil (n : Nat) : natChars n ≠ [] := by
  by_cases hn : n = 0
  · simp [natChars, hn]
  · simp only [natChars, if_neg hn]
    exact natCharsAux_ne_nil _ _ (by omega) (by omega)

lemma natCharsAux_foldl (fuel : Nat) :
    ∀ n, 0 < n → n ≤ fuel →
      (natCharsAux fuel n).foldl (fun acc c => acc * 10 + (c.toNat - 48)) 0 = n := by
  induction fuel with
  | zero => intro n h0 hf; omega
  | succ fuel ih =>
    intro n h0 hf
    have h10 : n % 10 < 10 := Nat.mod_lt _ (by omega)
    simp only [natCharsAux, if_neg (by omega : ¬ n = 0), List.foldl_append,
      List.foldl_cons, List.foldl_nil, digitChar_toNat _ h10]
    by_cases hq : n / 10 = 0
    · rw [hq, natCharsAux_zero]
      simp only [List.foldl_nil]
      have := Nat.div_add_mod n 10
      omega
    · have hlt : n / 10 < n := Nat.div_lt_self h0 (by omega)
      rw [ih (n / 10) (by omega) (by omega)]
      have := Nat.div_add_mod n 10
      omega

lemma parseNatDigits_natChars (n : Nat) : parseNatDigits (natChars n) = some n := by
  by_cases hn : n = 0
  · subst hn; rfl
  · have hne : natChars n ≠ [] := natChars_ne_nil n
    have hall : (natChars n).all Char.isDigit = true := by
      rw [List.all_eq_true]
      intro c hc
      exact natChars_all_digit n c hc
    rw [parseNatDigits, if_neg hne, if_pos hall]
    simp only [natChars, if_neg hn]
    rw [natCharsAux_foldl n n (by omega) (by omega)]

lemma natChars_head_digit (n : Nat) (c : Char) (t : List Char)
    (h : natChars n = c :: t) : c.isDigit = true :=
  natChars_all_digit n c (h ▸ List.mem_cons_self c t)

lemma parseUsize_natChars (n : Nat) (h : n < 18446744073709551616) :
    parseUsize (natChars n) = some n := by
  rcases hc : natChars n with _ | ⟨c, t⟩
  · exact absurd hc (natChars_ne_nil n)
  · have hd : c.isDigit = true := natChars_head_digit n c t hc
    have hplus : c ≠ '+' := isDigit_ne hd (by decide)
    rw [parseUsize, if_neg hplus, ← hc, parseNatDigits_natChars]
    simp [h]

lemma findIdxChar_append (t : Char) (A B : List Char) (h : ∀ c ∈ A, c ≠ t) :
    findIdxChar t (A ++ t :: B) = some A.length := by
  induction A with
  | nil => simp [findIdxChar]
  | cons a A ih =>
    have ha : a ≠ t := h a (List.mem_cons_self a A)
    simp only [List.cons_append, findIdxChar, if_neg ha, List.append_eq,
      ih (fun c hc => h c (List.mem_cons_of_mem a hc))]
    rfl

lemma append_colon_drop (A tail : List Char) :
    (A ++ ':' :: tail).drop (A.length + 1) = tail := by
  have : A ++ ':' :: tail = (A ++ [':']) ++ tail := by simp
  rw [this]
  have hlen : A.length + 1 = (A ++ [':']).length := by simp
  rw [hlen, List.drop_left]

lemma decode_not_marker (fuel : Nat) (c : Char) (rest : List Char)
    (hl : c ≠ 'l') (hd : c ≠ 'd') (hi : c ≠ 'i') :
    decode (fuel + 1) (c :: rest) = _decode_b_string (c :: rest) := by
  simp [decode, if_neg hl, if_neg hd, if_neg hi]

lemma _decode_b_string_spec (n : Nat) (tail : List Char)
    (h : n < 18446744073709551616) :
    _decode_b_string (natChars n ++ ':' :: tail) =
      if n ≤ tail.length then some (.BString (tail.take n), tail.drop n)
      else none := by
  have hfind : findIdxChar ':' (natChars n ++ ':' :: tail) =
      some (natChars n).length :=
    findIdxChar_append ':' (natChars n) tail
      (fun c hc => isDigit_ne (natChars_all_digit n c hc) (by decide))
  have htake : (natChars n ++ ':' :: tail).take (natChars n).length = natChars n :=
    List.take_left _ _
  have hlen : (natChars n ++ ':' :: tail).length =
      (natChars n).length + 1 + tail.length := by
    simp [List.length_append]
    omega
  have hdrop : (natChars n ++ ':' :: tail).drop ((natChars n).length + 1) = tail :=
    append_colon_drop _ _
  have hdrop2 : (natChars n ++ ':' :: tail).drop ((natChars n).length + 1 + n) =
      tail.drop n := by
    rw [← List.drop_drop, hdrop]
  simp only [_decode_b_string, _decode_string, hfind, htake, parseUsize_natChars n h,
    hdrop, hdrop2, hlen, Nat.add_le_add_iff_left]
  by_cases hle : n ≤ tail.length
  · rw [if_pos hle, if_pos hle]
  · rw [if_neg hle, if_neg hle]

lemma parseNatDigits_not_digit (c : Char) (xs : List Char) (h : c.isDigit = false) :
    parseNatDigits (c :: xs) = none := by
  have hall : (c :: xs).all Char.isDigit = false := by
    simp [List.all_cons, h]
  rw [parseNatDigits, if_neg (by simp : ¬ (c :: xs : List Char) = []),
    if_neg (by simp [hall])]

lemma parseUsize_cons_none (c : Char) (xs : List Char) (hplus : c ≠ '+')
    (h : c.isDigit = false) : parseUsize (c :: xs) = none := by
  rw [parseUsize, if_neg hplus, parseNatDigits_not_digit c xs h]
  rfl

lemma _decode_b_string_cons_none (c : Char) (rest : List Char) (hplus : c ≠ '+')
    (h : c.isDigit = false) : _decode_b_string (c :: rest) = none := by
  rw [_decode_b_string, _decode_string]
  by_cases hc : c = ':'
  · subst hc
    rw [show findIdxChar ':' (':' :: rest) = some 0 from by rw [findIdxChar]; simp]
    simp [parseUsize]
  · rw [show findIdxChar ':' (c :: rest) = (findIdxChar ':' rest).map (· + 1) from by
      rw [findIdxChar, if_neg hc]]
    rcases hfind : findIdxChar ':' rest with _ | k
    · rfl
    · simp only [Option.map_some']
      rw [show (c :: rest).take (k + 1) = c :: rest.take k from rfl,
        parseUsize_cons_none c _ hplus h]

lemma _encode_pairs_eq_join (dict : List (List Char × Bencode)) :
    _encode_pairs dict = (dict.map (fun kv =>
      natChars kv.1.length ++ ':' :: (kv.1 ++ encode kv.2))).flatten := by
  induction dict with
  | nil => simp [_encode_pairs]
  | cons kv rest ih =>
    rcases kv with ⟨k, v⟩
    simp [_encode_pairs, ih]

/-- C1 fails on the code: for `v = List [List [], Integer 0]`, whose encoding
is `llei0ee`, decode returns `List [List []]` — the trailing `Integer 0` is
dropped, because `_decode_list` never consumes the closing `e` of the inner
list and the outer loop mistakes that leftover `e` for its own terminator —
and the result is not structurally equal to `v`. -/
theorem c1_roundtrip_fails_on_code :
    encode (.BList [.BList [], .BInt 0]) = "llei0ee".toList ∧
    decode 20 ("llei0ee".toList) = some (.BList [.BList []], "ei0ee".toList) ∧
    beq (.BList [.BList []]) (.BList [.BList [], .BInt 0]) = false := by
  refine ⟨?_, rfl, rfl⟩
  simp [encode, _encode_list, _encode_items]
  rfl

/-- C2 fails on the code: for `v = List []` and suffix `X`, the encoding plus
suffix is `leX`, and decode returns remainder `eX`, not `X` — the list's
terminating `e` is left unconsumed by `_decode_list`. -/
theorem c2_cursor_discipline_fails_on_code :
    encode (.BList []) ++ ['X'] = "leX".toList ∧
    decode 10 ("leX".toList) = some (.BList [], "eX".toList) := by
  refine ⟨?_, rfl⟩
  simp [encode, _encode_list, _encode_items]

/-- C3 fails on the code: `de`, the canonical encoding of the empty mapping,
panics (modelled `none`) because the placeholder cursor `'0'` makes
`_decode_dict` decode a key before ever checking for `e`; a one-pair mapping
does decode, but a two-pair mapping panics as well, because after the first
pair the key decoder is handed the remainder with its first character already
consumed into the cursor. -/
theorem c3_dict_decode_fails_on_code :
    decode 10 ("de".toList) = none ∧
    decode 10 ("d4:testi1ee".toList) =
      some (.BDict [("test".toList, .BInt 1)], []) ∧
    decode 30 ("d1:ai1e1:bi2ee".toList) = none :=
  ⟨rfl, rfl, rfl⟩

/-- C6: list element order is preserved by both directions: the two orders of
`Integer 1` and `ByteString "ace"` encode to `li1e3:acee` and `l3:acei1ee`
respectively, and each of those decodes back to the list with its elements
in that same order. -/
theorem c6_list_order_preserved :
    encode (.BList [.BInt 1, .BString "ace".toList]) = "li1e3:acee".toList ∧
    encode (.BList [.BString "ace".toList, .BInt 1]) = "l3:acei1ee".toList ∧
    decode 9 ("li1e3:acee".toList) =
      some (.BList [.BInt 1, .BString "ace".toList], ['e']) ∧
    decode 9 ("l3:acei1ee".toList) =
      some (.BList [.BString "ace".toList, .BInt 1], ['e']) := by
  refine ⟨?_, ?_, rfl, rfl⟩ <;> (simp [encode, _encode_list, _encode_items]; rfl)

/-- C8 fails as stated: two structurally equal mappings — same key/value
pairs, stored in different iteration order, as two equal Rust `HashMap`s may
be — encode to different byte strings, so encode is not deterministic up to
structural equality. -/
theorem c8_counterexample :
    beq (.BDict [("a".toList, .BInt 0), ("b".toList, .BInt 1)])
        (.BDict [("b".toList, .BInt 1), ("a".toList, .BInt 0)]) = true ∧
    encode (.BDict [("a".toList, .BInt 0), ("b".toList, .BInt 1)]) ≠
      encode (.BDict [("b".toList, .BInt 1), ("a".toList, .BInt 0)]) := by
  refine ⟨rfl, ?_⟩
  intro h
  rw [show encode (.BDict [("a".toList, .BInt 0), ("b".toList, .BInt 1)]) =
      "d1:ai0e1:bi1ee".toList from by
        simp [encode, _encode_dict, _encode_pairs]; rfl,
    show encode (.BDict [("b".toList, .BInt 1), ("a".toList, .BInt 0)]) =
      "d1:bi1e1:ai0ee".toList from by
        simp [encode, _encode_dict, _encode_pairs]; rfl] at h
  exact absurd h (by decide)

/-- C8 amended: encode is a function of the stored representation (mapping
iteration order included), and within one encode call on a Mapping every
stored pair is emitted exactly once, in order, as the length-prefixed key
immediately followed by the encoding of its associated value. -/
theorem c8_amended_encode_dict_shape :
    ∀ dict, encode (.BDict dict) =
      'd' :: (dict.map (fun kv =>
        natChars kv.1.length ++ ':' :: (kv.1 ++ encode kv.2))).flatten ++ ['e'] := by
  intro dict
  rw [show encode (.BDict dict) = _encode_dict dict from by simp [encode],
    _encode_dict, _encode_pairs_eq_join]

/-- C9: the decoder has no error channel: a panic is the only failure mode
(modelled as `none`), and on malformed or truncated input of every kind —
empty input, an integer missing its `e`, an integer with a non-digit inside,
a byte-string shorter than its declared length, an unterminated list, a
dictionary whose value is missing, or an unrecognized leading character — no
value, partial or otherwise, is returned. -/
theorem c9_no_error_channel :
    decode 10 [] = none ∧
    decode 10 ("i12".toList) = none ∧
    decode 10 ("i1x2e".toList) = none ∧
    decode 10 ("3:ab".toList) = none ∧
    decode 10 ("l".toList) = none ∧
    decode 10 ("d1:a".toList) = none ∧
    decode 10 ("zz".toList) = none :=
  ⟨rfl, rfl, rfl, rfl, rfl, rfl, rfl⟩

/-- C10: the decoder accepts non-canonical numeric spellings: an integer
field with leading zeros parses to its value, and a byte-string length field
with a leading `+` parses to its value, exactly as claimed. -/
theorem c10_non_canonical_numerals :
    decode 5 ("i007e".toList) = some (.BInt 7, []) ∧
    decode 5 ("+3:abc".toList) = some (.BString ("abc".toList), []) :=
  ⟨rfl, rfl⟩

/-- C4: decoding a byte-string takes the decimal length before `:` as the
single source of truth and consumes exactly that many following characters as
content, never searching for a terminator inside the content:
`decode "9:hamburger" = (BString "hamburger", "")`, and in general a declared
length `n` over arbitrary content characters — marker-looking ones included —
consumes exactly `n` characters and returns exactly the following suffix. -/
theorem c4_string_length_exactness :
    decode 1 ("9:hamburger".toList) = some (.BString ("hamburger".toList), []) ∧
    ∀ fuel n content rest, content.length = n → n < 18446744073709551616 →
      decode (fuel + 1) (natChars n ++ ':' :: (content ++ rest)) =
        some (.BString content, rest) := by
  constructor
  · rfl
  · intro fuel n content rest hlen hbound
    rcases hc : natChars n with _ | ⟨c, t⟩
    · exact absurd hc (natChars_ne_nil n)
    have hd : c.isDigit = true := natChars_head_digit n c t hc
    rw [List.cons_append,
      decode_not_marker fuel c _ (isDigit_ne hd (by decide))
        (isDigit_ne hd (by decide)) (isDigit_ne hd (by decide)),
      ← List.cons_append, ← hc, _decode_b_string_spec n _ hbound]
    subst hlen
    rw [if_pos (by simp [List.length_append]), List.take_left, List.drop_left]

/-- Witness for C4 at a concrete input: declared length `3`, content `iii`
(characters that look like integer markers), suffix `e`. -/
theorem c4_string_length_exactness_witness :
    decode 3 (natChars 3 ++ ':' :: ("iii".toList ++ "e".toList)) =
      some (.BString ("iii".toList), "e".toList) :=
  c4_string_length_exactness.2 2 3 ("iii".toList) ("e".toList) (by decide) (by decide)

/-- C5: a byte-string whose declared length exceeds the available characters
fails — `decode "9:ham"` panics on the out-of-range slice, modelled as
`none`, with no partial `BString` — including when the truncated string sits
inside a list, where the failure aborts the whole decode; and in general a
declared length larger than the rest of the input yields `none`. -/
theorem c5_truncation_fails :
    decode 1 ("9:ham".toList) = none ∧
    decode 10 ("l9:hame".toList) = none ∧
    ∀ fuel n content, content.length < n → n < 18446744073709551616 →
      decode (fuel + 1) (natChars n ++ ':' :: content) = none := by
  refine ⟨rfl, rfl, ?_⟩
  intro fuel n content hlen hbound
  rcases hc : natChars n with _ | ⟨c, t⟩
  · exact absurd hc (natChars_ne_nil n)
  have hd : c.isDigit = true := natChars_head_digit n c t hc
  rw [List.cons_append,
    decode_not_marker fuel c _ (isDigit_ne hd (by decide))
      (isDigit_ne hd (by decide)) (isDigit_ne hd (by decide)),
    ← List.cons_append, ← hc, _decode_b_string_spec n _ hbound, if_neg (by omega)]

/-- Witness for C5 at a concrete input: declared length `9`, three available
characters. -/
theorem c5_truncation_fails_witness :
    decode 1 (natChars 9 ++ ':' :: "ham".toList) = none :=
  c5_truncation_fails.2.2 0 9 ("ham".toList) (by decide) (by decide)

/-- C7 fails as stated: the input `+0:` begins with `+`, which is none of
`i`, `l`, `d` or a decimal digit, yet `decode` returns a `BString` value,
because the catch-all branch sends the input to `_decode_b_string` and Rust's
`usize` parsing accepts a leading `+`. -/
theorem c7_counterexample :
    ('+'.isDigit = false ∧ '+' ≠ 'i' ∧ '+' ≠ 'l' ∧ '+' ≠ 'd') ∧
    decode 5 ("+0:".toList) = some (.BString [], []) :=
  ⟨⟨by decide, by decide, by decide, by decide⟩, rfl⟩

/-- C7 amended: for empty input, and for every input whose first character is
not `i`, `l`, `d`, `+`, or a decimal digit, `decode` fails (panics, modelled
as `none`); a leading `+` must be excepted because `usize` parsing accepts
it. -/
theorem c7_amended_unexpected_marker_fails :
    (∀ fuel, decode fuel [] = none) ∧
    ∀ fuel c rest, c ≠ 'i' → c ≠ 'l' → c ≠ 'd' → c ≠ '+' → c.isDigit = false →
      decode fuel (c :: rest) = none := by
  constructor
  · intro fuel
    cases fuel <;> rfl
  · intro fuel c rest hi hl hd hplus hdig
    cases fuel with
    | zero => rfl
    | succ fuel =>
      rw [decode_not_marker fuel c rest hl hd hi,
        _decode_b_string_cons_none c rest hplus hdig]

/-- Witness for C7 amended: the empty input and the input `:abc`. -/
theorem c7_amended_witness :
    decode 7 [] = none ∧ decode 7 (':' :: "abc".toList) = none :=
  ⟨c7_amended_unexpected_marker_fails.1 7,
    c7_amended_unexpected_marker_fails.2 7 ':' ("abc".toList)
      (by decide) (by decide) (by decide) (by decide) (by decide)⟩

end SchmooBencode
